import Mathlib

/-!
Shallow embedding of the hard-disc Monte Carlo demo (`demos/hard_disc.cc`)
of the aabbtree repository.  C++ `double` values are modelled as `ℚ`
(every concrete value appearing in the development is exactly
representable in binary floating point).  The AABB tree itself
(`abt/aabb_tree.hpp`) and the random-number generator
(`MersenneTwister.h`) are not part of the sources; the contract-level
behaviour each must provide is modelled from the specification and
marked `Modelled from the spec:` below.
-/

namespace HardDisc

/-- Two-dimensional vector of rationals, modelling `vec<double>` /
`abt::point<2>` from the demo. -/
structure Vec2 where
  x : ℚ
  y : ℚ
deriving DecidableEq, Repr

/-- Per-axis boolean pair, modelling `vec<bool>` (the periodicity flags). -/
structure BVec2 where
  x : Bool
  y : Bool
deriving DecidableEq, Repr

/-- Implicit C++ conversion `bool → double` used in expressions such as
`periodicity[i] * boxSize[i]` (hard_disc.cc lines 437, 441, 453, 457). -/
def boolVal (b : Bool) : ℚ := if b then 1 else 0

lemma boolVal_true : boolVal true = 1 := rfl

lemma boolVal_false : boolVal false = 0 := rfl

/-- One component of `minimumImage` (hard_disc.cc lines 435–444):
if the separation is below `-0.5 * L` add `periodicity * L`, else if it
is at least `0.5 * L` subtract `periodicity * L`. -/
def minImageComp (s : ℚ) (p : Bool) (L : ℚ) : ℚ :=
  if s < -(1/2 * L) then s + boolVal p * L
  else if s ≥ 1/2 * L then s - boolVal p * L
  else s

/-- `minimumImage` (hard_disc.cc lines 431–445), acting componentwise on
the separation vector. -/
def minimumImage (sep : Vec2) (per : BVec2) (box : Vec2) : Vec2 :=
  ⟨minImageComp sep.x per.x box.x, minImageComp sep.y per.y box.y⟩

/-- One component of `periodicBoundaries` (hard_disc.cc lines 451–460):
if the coordinate is negative add `periodicity * L`, else if it is at
least `L` subtract `periodicity * L`. -/
def pbComp (c : ℚ) (p : Bool) (L : ℚ) : ℚ :=
  if c < 0 then c + boolVal p * L
  else if c ≥ L then c - boolVal p * L
  else c

/-- `periodicBoundaries` (hard_disc.cc lines 447–461), componentwise. -/
def periodicBoundaries (pos : Vec2) (per : BVec2) (box : Vec2) : Vec2 :=
  ⟨pbComp pos.x per.x box.x, pbComp pos.y per.y box.y⟩

/-- `overlaps` (hard_disc.cc lines 410–429): separation `position1 -
position2`, minimum-image corrected, squared norm compared strictly
against the cutoff. -/
def overlaps (p1 p2 : Vec2) (per : BVec2) (box : Vec2) (cutOff : ℚ) : Bool :=
  let sep : Vec2 := ⟨p1.x - p2.x, p1.y - p2.y⟩
  let m := minimumImage sep per box
  if m.x * m.x + m.y * m.y < cutOff then true else false

/-- Squared minimum-image distance between two positions (the quantity
`rSqd` computed inside `overlaps`). -/
def minImageDistSq (p1 p2 : Vec2) (per : BVec2) (box : Vec2) : ℚ :=
  let m := minimumImage ⟨p1.x - p2.x, p1.y - p2.y⟩ per box
  m.x * m.x + m.y * m.y

/-- Axis-aligned bounding box with lower and upper corner. -/
structure Aabb where
  lo : Vec2
  hi : Vec2
deriving DecidableEq, Repr

/-- Modelled from the spec: `abt::aabb<2>::of_sphere(position, radius)`
(declared in `abt/aabb_tree.hpp`, which is not among the sources).
Spec §4.2: "A bounding region for a particle is the axis-aligned
square/box of half-width equal to the particle's radius, centered at
its position." -/
def ofSphere (p : Vec2) (r : ℚ) : Aabb :=
  ⟨⟨p.x - r, p.y - r⟩, ⟨p.x + r, p.y + r⟩⟩

/-- Modelled from the spec: the value of a default-constructed
`abt::point<2>` (the demo declares `abt::point<2> lowerBound;
abt::point<2> upperBound;` and never assigns them before passing them to
`update`).  Spec §9 describes the region built from them as
"uninitialized/default geometry", "a placeholder"; it is modelled as the
origin point. -/
def defaultPoint : Vec2 := ⟨0, 0⟩

/-- Plain closed-interval overlap of two axis intervals. -/
def axOverlap (al ah bl bh : ℚ) : Bool :=
  if al ≤ bh ∧ bl ≤ ah then true else false

/-- Periodicity-aware interval overlap on one axis: the stored interval
may also be tested shifted by ± the box length when the axis is
periodic. -/
def axOverlapPer (al ah bl bh : ℚ) (p : Bool) (L : ℚ) : Bool :=
  axOverlap al ah bl bh ||
    (p && (axOverlap (al + L) (ah + L) bl bh ||
           axOverlap (al - L) (ah - L) bl bh))

/-- Intersection test of two bounding regions under the domain's
periodicity. -/
def aabbIntersects (per : BVec2) (box : Vec2) (a b : Aabb) : Bool :=
  axOverlapPer a.lo.x a.hi.x b.lo.x b.hi.x per.x box.x &&
  axOverlapPer a.lo.y a.hi.y b.lo.y b.hi.y per.y box.y

/-- Modelled from the spec: the spatial index (`abt::tree<2>`, defined in
`abt/aabb_tree.hpp`, not among the sources).  Spec §4.2 requires it to
store one bounding region per id (`insert`), to let `update` "replace
the bounding region for an existing entry", and to let the overlap query
"return all entries whose stored bounding region intersects the query
region" (never omitting one whose stored region intersects, with
periodicity taken into account since the tree is constructed with the
periodicity flags and box size). -/
structure Tree where
  entries : List (ℕ × Aabb)
deriving DecidableEq, Repr

/-- Modelled from the spec: `insert(id, boundingRegion)` registers a new
entry (§4.2). -/
def Tree.insert (t : Tree) (id : ℕ) (a : Aabb) : Tree :=
  ⟨t.entries ++ [(id, a)]⟩

/-- Modelled from the spec: `update(id, boundingRegion)` replaces the
stored bounding region of an existing entry (§4.2). -/
def Tree.update (t : Tree) (id : ℕ) (a : Aabb) : Tree :=
  ⟨t.entries.map (fun e => if e.1 = id then (id, a) else e)⟩

/-- Modelled from the spec: `get_overlaps(aabb)` returns the ids of all
entries whose stored bounding region intersects the query region
(§4.2), periodicity-aware. -/
def Tree.getOverlaps (t : Tree) (per : BVec2) (box : Vec2) (q : Aabb) :
    List ℕ :=
  (t.entries.filter (fun e => aabbIntersects per box e.2 q)).map (·.1)

/-- Simulation parameters (hard_disc.cc lines 86–117).  The box size is
kept as a parameter (in `main` it is derived from the density via a
square root, an irrational value; every claim below is about the engine
at a given box). -/
structure Config where
  nSweeps : ℕ
  sampleInterval : ℕ
  nSmall : ℕ
  nLarge : ℕ
  diameterSmall : ℚ
  diameterLarge : ℚ
  maxDisp : ℚ
  periodicity : BVec2
  boxSize : Vec2
deriving DecidableEq, Repr

/-- `radiusSmall = 0.5 * diameterSmall` (hard_disc.cc line 102). -/
def Config.radiusSmall (c : Config) : ℚ := 1/2 * c.diameterSmall

/-- `radiusLarge = 0.5 * diameterLarge` (hard_disc.cc line 103). -/
def Config.radiusLarge (c : Config) : ℚ := 1/2 * c.diameterLarge

/-- `nParticles = nSmall + nLarge` (hard_disc.cc line 96). -/
def Config.nParticles (c : Config) : ℕ := c.nSmall + c.nLarge

/-- The mutable simulation state: the two position sequences and the two
spatial indices (hard_disc.cc lines 124–131). -/
structure SimState where
  positionsSmall : List Vec2
  positionsLarge : List Vec2
  treeSmall : Tree
  treeLarge : Tree
deriving DecidableEq, Repr

/-- Indexed read from a position sequence (C++ `positions[k]`; indices
produced by the tree query are valid, the default is never relevant on
the traces considered). -/
def posD (l : List Vec2) (k : ℕ) : Vec2 := l.getD k ⟨0, 0⟩

/-- Modelled from the spec: `rng.integer(lo, hi)` of `MersenneTwister.h`
(not among the sources).  Spec §6: the random source exposes
`integerInRange(lo, hi) -> integer in [lo,hi]` (inclusive), here driven
by one uniform real draw `u ∈ [0,1)` from the stream. -/
def intDraw (u : ℚ) (lo hi : ℕ) : ℕ :=
  lo + (⌊u * ((hi : ℚ) - (lo : ℚ) + 1)⌋).toNat

/-- Result of one trial move: the new state, the list of index `update`
calls issued (species flag: `false` = small tree, `true` = large tree;
id; region passed), and whether the move was accepted. -/
structure TrialResult where
  state : SimState
  updateCalls : List (Bool × ℕ × Aabb)
  accepted : Bool
deriving DecidableEq, Repr

/-- Body of one trial move after the particle-selection draw has been
resolved to a pooled particle index (hard_disc.cc lines 283–374):
species and radius from the pooled index, displacement from the two
uniform draws `u1`, `u2`, periodic wrap, broad-phase query of the small
tree then the large tree with self-comparison excluded, and on
acceptance the position is committed while the index `update` is called
with the region built from the two default-constructed bound points
(hard_disc.cc lines 295–296 and 367/371). -/
def trialAfterSel (cfg : Config) (st : SimState) (particle0 : ℕ)
    (u1 u2 : ℚ) : TrialResult :=
  let particleType : ℕ := if particle0 < cfg.nSmall then 0 else 1
  let radius := if particleType = 0 then cfg.radiusSmall else cfg.radiusLarge
  let particle := if particleType = 1 then particle0 - cfg.nSmall else particle0
  let diameter :=
    if particleType = 0 then cfg.diameterSmall else cfg.diameterLarge
  let oldPos :=
    if particleType = 0 then posD st.positionsSmall particle
    else posD st.positionsLarge particle
  let dx := cfg.maxDisp * diameter * (2 * u1 - 1)
  let dy := cfg.maxDisp * diameter * (2 * u2 - 1)
  let position :=
    periodicBoundaries ⟨oldPos.x + dx, oldPos.y + dy⟩ cfg.periodicity
      cfg.boxSize
  let aabb := ofSphere position radius
  let candS := st.treeSmall.getOverlaps cfg.periodicity cfg.boxSize aabb
  let cutS := (radius + cfg.radiusSmall) * (radius + cfg.radiusSmall)
  let isOverlapS := candS.any (fun k =>
    if particleType = 1 ∨ k ≠ particle then
      overlaps position (posD st.positionsSmall k) cfg.periodicity
        cfg.boxSize cutS
    else false)
  if isOverlapS then ⟨st, [], false⟩
  else
    let candL := st.treeLarge.getOverlaps cfg.periodicity cfg.boxSize aabb
    let cutL := (radius + cfg.radiusLarge) * (radius + cfg.radiusLarge)
    let isOverlapL := candL.any (fun k =>
      if particleType = 0 ∨ k ≠ particle then
        overlaps position (posD st.positionsLarge k) cfg.periodicity
          cfg.boxSize cutL
      else false)
    if isOverlapL then ⟨st, [], false⟩
    else
      let lowerBound := defaultPoint
      let upperBound := defaultPoint
      if particleType = 0 then
        ⟨{ st with
            positionsSmall := st.positionsSmall.set particle position,
            treeSmall :=
              st.treeSmall.update particle ⟨lowerBound, upperBound⟩ },
          [(false, particle, ⟨lowerBound, upperBound⟩)], true⟩
      else
        ⟨{ st with
            positionsLarge := st.positionsLarge.set particle position,
            treeLarge :=
              st.treeLarge.update particle ⟨lowerBound, upperBound⟩ },
          [(true, particle, ⟨lowerBound, upperBound⟩)], true⟩

/-- One trial move from three stream draws: the first draw selects the
particle uniformly over the pooled population (hard_disc.cc line 280),
the next two drive the per-axis displacement (lines 300–307). -/
def trialStep (cfg : Config) (st : SimState) (u0 u1 u2 : ℚ) : TrialResult :=
  trialAfterSel cfg st (intDraw u0 0 (cfg.nParticles - 1)) u1 u2

/-- One trial move consuming its three draws from the front of the
stream, in the order they are pulled from the generator in the source:
particle selection first, then the x and y displacement draws. -/
def trialStepS (cfg : Config) (st : SimState) (s : List ℚ) :
    TrialResult × List ℚ :=
  (trialStep cfg st (s.headD 0) (s.tail.headD 0) (s.tail.tail.headD 0),
    s.tail.tail.tail)

/-- Inner loop of one sweep: `n` consecutive trial moves (hard_disc.cc
line 278 runs it `nParticles` times). -/
def sweepAux (cfg : Config) : ℕ → SimState → List ℚ → SimState × List ℚ
  | 0, st, s => (st, s)
  | n + 1, st, s =>
      let r := trialStepS cfg st s
      sweepAux cfg n r.1.state r.2

/-- One Monte Carlo sweep: `nSmall + nLarge` trial moves. -/
def sweep (cfg : Config) (st : SimState) (s : List ℚ) :
    SimState × List ℚ :=
  sweepAux cfg cfg.nParticles st s

/-- A recorded frame: both species' full position sequences, as passed
to `printVMD` (hard_disc.cc line 383). -/
def frameOf (st : SimState) : List Vec2 × List Vec2 :=
  (st.positionsSmall, st.positionsLarge)

/-- Result of the sweep loop: final state, remaining stream, the frames
recorded by the sampler in chronological order, and the value of the
`nSampled` counter. -/
structure RunResult where
  state : SimState
  stream : List ℚ
  frames : List (List Vec2 × List Vec2)
  nSampled : ℕ
deriving DecidableEq, Repr

/-- The sweep loop (hard_disc.cc lines 277–396): after each sweep the
`sampleFlag` counter is incremented; when it reaches `sampleInterval` it
is reset, `nSampled` is incremented and the current configuration is
recorded. -/
def mcLoop (cfg : Config) :
    ℕ → SimState → List ℚ → ℕ → ℕ → RunResult
  | 0, st, s, _flag, cnt => ⟨st, s, [], cnt⟩
  | n + 1, st, s, flag, cnt =>
      let p := sweep cfg st s
      let flag1 := flag + 1
      if flag1 = cfg.sampleInterval then
        let r := mcLoop cfg n p.1 p.2 0 (cnt + 1)
        ⟨r.state, r.stream, frameOf p.1 :: r.frames, r.nSampled⟩
      else
        mcLoop cfg n p.1 p.2 flag1 cnt

/-- The full dynamics phase: `nSweeps` sweeps with `sampleFlag` and
`nSampled` starting at 0 (hard_disc.cc lines 273–274). -/
def mcRun (cfg : Config) (st : SimState) (s : List ℚ) : RunResult :=
  mcLoop cfg cfg.nSweeps st s 0 0

/-- Iterated sweeps: the state/stream pair after `n` sweeps. -/
def sweepsIter (cfg : Config) : ℕ → SimState × List ℚ → SimState × List ℚ
  | 0, p => p
  | n + 1, p => sweepsIter cfg n (sweep cfg p.1 p.2)

/-- A candidate position drawn uniformly over the domain from the next
two stream draws (`boxSize[0] * rng()`, `boxSize[1] * rng()`,
hard_disc.cc lines 147–148, 159–160, 207–208). -/
def drawPos (cfg : Config) (s : List ℚ) : Vec2 :=
  ⟨cfg.boxSize.x * s.headD 0, cfg.boxSize.y * s.tail.headD 0⟩

/-- Rejection-sampling loop placing one large particle with index `> 0`
(hard_disc.cc lines 157–183): candidates are redrawn until one passes
the narrow-phase test with cutoff `(2·radiusLarge)²` against every
already-placed large particle returned by the broad phase.  `none`
means the fuel bound was exhausted (the source loop is unbounded). -/
def placeLargeLoop (cfg : Config) (treeL : Tree) (posL : List Vec2) :
    ℕ → List ℚ → Option (Vec2 × List ℚ)
  | 0, _ => none
  | fuel + 1, s =>
      let pos := drawPos cfg s
      let s1 := s.tail.tail
      let aabb := ofSphere pos cfg.radiusLarge
      let cand := treeL.getOverlaps cfg.periodicity cfg.boxSize aabb
      let cut := (2 * cfg.radiusLarge) * (2 * cfg.radiusLarge)
      let isOv := cand.any (fun j =>
        overlaps pos (posD posL j) cfg.periodicity cfg.boxSize cut)
      if isOv then placeLargeLoop cfg treeL posL fuel s1
      else some (pos, s1)

/-- Large-particle generation loop (hard_disc.cc lines 140–191): the
first particle (`i = 0`) is placed directly from two draws with no
test; every later one goes through the rejection loop.  Each placed
particle is inserted into the large tree with the bounding region of
its position and appended to the position sequence. -/
def genLarge (cfg : Config) (fuel : ℕ) :
    ℕ → ℕ → Tree → List Vec2 → List ℚ →
      Option (Tree × List Vec2 × List ℚ)
  | 0, _i, t, p, s => some (t, p, s)
  | n + 1, i, t, p, s =>
      let r : Option (Vec2 × List ℚ) :=
        if i = 0 then some (drawPos cfg s, s.tail.tail)
        else placeLargeLoop cfg t p fuel s
      match r with
      | none => none
      | some (pos, s1) =>
          genLarge cfg fuel n (i + 1)
            (t.insert i (ofSphere pos cfg.radiusLarge)) (p ++ [pos]) s1

/-- Overlap flag computed for one small-particle candidate
(hard_disc.cc lines 210–253): first the narrow-phase test against the
large-tree candidates with cutoff `(radiusSmall + radiusLarge)²`; only
if that found nothing and `i > 0`, the test against the small-tree
candidates with cutoff `(2·radiusSmall)²`. -/
def smallOverlapFlag (cfg : Config) (treeS treeL : Tree)
    (posS posL : List Vec2) (i : ℕ) (pos : Vec2) : Bool :=
  let aabb := ofSphere pos cfg.radiusSmall
  let candL := treeL.getOverlaps cfg.periodicity cfg.boxSize aabb
  let cutL :=
    (cfg.radiusSmall + cfg.radiusLarge) * (cfg.radiusSmall + cfg.radiusLarge)
  let ovL := candL.any (fun j =>
    overlaps pos (posD posL j) cfg.periodicity cfg.boxSize cutL)
  if ovL then true
  else if 0 < i then
    let candS := treeS.getOverlaps cfg.periodicity cfg.boxSize aabb
    let cutS := (2 * cfg.radiusSmall) * (2 * cfg.radiusSmall)
    candS.any (fun j =>
      overlaps pos (posD posS j) cfg.periodicity cfg.boxSize cutS)
  else false

/-- Rejection-sampling loop placing one small particle (hard_disc.cc
lines 205–254): candidates are redrawn until `smallOverlapFlag` is
false. -/
def placeSmallLoop (cfg : Config) (treeS treeL : Tree)
    (posS posL : List Vec2) (i : ℕ) :
    ℕ → List ℚ → Option (Vec2 × List ℚ)
  | 0, _ => none
  | fuel + 1, s =>
      let pos := drawPos cfg s
      let s1 := s.tail.tail
      if smallOverlapFlag cfg treeS treeL posS posL i pos then
        placeSmallLoop cfg treeS treeL posS posL i fuel s1
      else some (pos, s1)

/-- Small-particle generation loop (hard_disc.cc lines 197–261), run
after all large particles are placed; the large tree and large position
sequence are read-only here. -/
def genSmall (cfg : Config) (fuel : ℕ) (treeL : Tree) (posL : List Vec2) :
    ℕ → ℕ → Tree → List Vec2 → List ℚ →
      Option (Tree × List Vec2 × List ℚ)
  | 0, _i, tS, pS, s => some (tS, pS, s)
  | n + 1, i, tS, pS, s =>
      match placeSmallLoop cfg tS treeL pS posL i fuel s with
      | none => none
      | some (pos, s1) =>
          genSmall cfg fuel treeL posL n (i + 1)
            (tS.insert i (ofSphere pos cfg.radiusSmall)) (pS ++ [pos]) s1

/-- Packing generation (hard_disc.cc lines 140–262): all large
particles are placed first, then all small particles. -/
def generate (cfg : Config) (fuel : ℕ) (s : List ℚ) :
    Option (SimState × List ℚ) :=
  match genLarge cfg fuel cfg.nLarge 0 ⟨[]⟩ [] s with
  | none => none
  | some (tL, pL, s1) =>
      match genSmall cfg fuel tL pL cfg.nSmall 0 ⟨[]⟩ [] s1 with
      | none => none
      | some (tS, pS, s2) => some (⟨pS, pL, tS, tL⟩, s2)

/-- The whole program run: packing generation followed by the sweep
loop. -/
def fullRun (cfg : Config) (fuel : ℕ) (s : List ℚ) : Option RunResult :=
  (generate cfg fuel s).map (fun p => mcRun cfg p.1 p.2)

/-- A small concrete configuration used for the concrete runs below: two
small particles, no large ones, a 10×10 fully periodic box, small
diameter 1 (radius 1/2), `maxDisp` 0.1, three sweeps, sampling every
sweep. -/
def cfgBug : Config :=
  { nSweeps := 3, sampleInterval := 1, nSmall := 2, nLarge := 0,
    diameterSmall := 1, diameterLarge := 10, maxDisp := 1/10,
    periodicity := ⟨true, true⟩, boxSize := ⟨10, 10⟩ }

/-- Draws consumed by packing generation of `cfgBug`: small particle 0
at (1, 1), small particle 1 at (2.2, 1). -/
def packDraws : List ℚ := [1/10, 1/10, 11/50, 1/10]

/-- Draws consumed by the three sweeps (six trials, three draws each):
trial 1 moves particle 0 by (+0.05, 0); trials 2–5 move particle 1 by
(−0.05, 0) each; trial 6 moves particle 1 by (0, 0). -/
def trialDraws : List ℚ :=
  [0, 3/4, 1/2,
   1/2, 1/4, 1/2,
   1/2, 1/4, 1/2,
   1/2, 1/4, 1/2,
   1/2, 1/4, 1/2,
   1/2, 1/2, 1/2]

/-- The full draw stream of the concrete run. -/
def bugDraws : List ℚ := packDraws ++ trialDraws

/-- State after packing generation of `cfgBug`: particles at (1, 1) and
(2.2, 1), both registered in the small tree with the true bounding
regions of their positions. -/
def stPack : SimState :=
  ⟨[⟨1, 1⟩, ⟨11/5, 1⟩], [],
   ⟨[(0, ⟨⟨1/2, 1/2⟩, ⟨3/2, 3/2⟩⟩), (1, ⟨⟨17/10, 1/2⟩, ⟨27/10, 3/2⟩⟩)]⟩,
   ⟨[]⟩⟩

/-- The region actually passed to every index `update` call by the
accept path: the box built from the two default-constructed bound
points. -/
def dfltAabb : Aabb := ⟨defaultPoint, defaultPoint⟩

/-- State after trial 1: particle 0 moved to (1.05, 1); its stored
region in the small tree has been replaced by the default region. -/
def st1 : SimState :=
  ⟨[⟨21/20, 1⟩, ⟨11/5, 1⟩], [],
   ⟨[(0, dfltAabb), (1, ⟨⟨17/10, 1/2⟩, ⟨27/10, 3/2⟩⟩)]⟩, ⟨[]⟩⟩

/-- State after trial 2: particle 1 moved to (2.15, 1); both stored
regions are now the default region. -/
def st2 : SimState :=
  ⟨[⟨21/20, 1⟩, ⟨43/20, 1⟩], [], ⟨[(0, dfltAabb), (1, dfltAabb)]⟩, ⟨[]⟩⟩

/-- State after trial 3: particle 1 at (2.1, 1). -/
def st3 : SimState :=
  ⟨[⟨21/20, 1⟩, ⟨21/10, 1⟩], [], ⟨[(0, dfltAabb), (1, dfltAabb)]⟩, ⟨[]⟩⟩

/-- State after trial 4: particle 1 at (2.05, 1). -/
def st4 : SimState :=
  ⟨[⟨21/20, 1⟩, ⟨41/20, 1⟩], [], ⟨[(0, dfltAabb), (1, dfltAabb)]⟩, ⟨[]⟩⟩

/-- State after trials 5 and 6: particle 1 at (2, 1), at minimum-image
distance 0.95 < 1 from particle 0 — a hard-core overlap. -/
def st5 : SimState :=
  ⟨[⟨21/20, 1⟩, ⟨2, 1⟩], [], ⟨[(0, dfltAabb), (1, dfltAabb)]⟩, ⟨[]⟩⟩

/-- A configuration with 1000 sweeps and sample interval 100, for the
concrete sampling-count scenario. -/
def cfg1000 : Config :=
  { nSweeps := 1000, sampleInterval := 100, nSmall := 2, nLarge := 0,
    diameterSmall := 1, diameterLarge := 10, maxDisp := 1/10,
    periodicity := ⟨true, true⟩, boxSize := ⟨10, 10⟩ }

/-- A state with two particles at distance 1.05 and faithful stored
regions, used to exhibit a rejected trial. -/
def stRej : SimState :=
  ⟨[⟨1, 1⟩, ⟨41/20, 1⟩], [],
   ⟨[(0, ⟨⟨1/2, 1/2⟩, ⟨3/2, 3/2⟩⟩), (1, ⟨⟨31/20, 1/2⟩, ⟨51/20, 3/2⟩⟩)]⟩,
   ⟨[]⟩⟩

/-- Helper: the square of the minimum-image correction of a separation
is unchanged when the separation is negated, for a nonnegative box
length.  (The corrected values are negations of each other except at
branch-boundary ties, where they coincide.) -/
lemma minImageComp_neg_sq (d L : ℚ) (p : Bool) (hL : 0 ≤ L) :
    minImageComp (-d) p L * minImageComp (-d) p L =
      minImageComp d p L * minImageComp d p L := by
  cases p with
  | false =>
      unfold minImageComp
      simp only [boolVal_false, zero_mul, add_zero, sub_zero]
      split_ifs <;> ring
  | true =>
      unfold minImageComp
      simp only [boolVal_true, one_mul]
      split_ifs <;>
        first
          | ring1
          | linarith
          | (have hL0 : L = 0 := by linarith
             have hd : d = 0 := by linarith
             rw [hL0, hd]; ring1)
          | (have hd : d = -(1/2 * L) := by linarith
             rw [hd]; ring1)
          | (have hd : d = 1/2 * L := by linarith
             rw [hd]; ring1)

/-- Claim C3: `overlaps` returns true iff the squared Euclidean norm of
the minimum-image separation is strictly less than the cutoff; in the
10×10 periodic box with radius 1, particles at (1,1) and (1,9) have
squared minimum-image distance 4 = (2r)², and `overlaps` returns false
(an exactly touching pair is not overlapping). -/
theorem overlaps_iff_strict_sq_lt :
    (∀ p1 p2 per box c, overlaps p1 p2 per box c = true ↔
        minImageDistSq p1 p2 per box < c) ∧
    overlaps ⟨1, 1⟩ ⟨1, 9⟩ ⟨true, true⟩ ⟨10, 10⟩ 4 = false ∧
    minImageDistSq ⟨1, 1⟩ ⟨1, 9⟩ ⟨true, true⟩ ⟨10, 10⟩ = 4 := by
  refine ⟨fun p1 p2 per box c => ?_, ?_, ?_⟩
  · unfold overlaps minImageDistSq
    dsimp only
    split_ifs with h
    · simp [h]
    · simp [h]
  · norm_num [overlaps, minimumImage, minImageComp, boolVal]
  · norm_num [minImageDistSq, minimumImage, minImageComp, boolVal]

/-- Claim C6, counterexample: for input coordinate −15 in a periodic
box of length 10, the wrap adds the box length only once, returning −5,
which does not lie in [0, 10); so the output does not lie in
[0, boxLength) for every input position. -/
theorem periodicWrap_range_cex :
    periodicBoundaries ⟨-15, 1⟩ ⟨true, true⟩ ⟨10, 10⟩ = ⟨-5, 1⟩ ∧
      ¬ (0 ≤ (-5 : ℚ) ∧ (-5 : ℚ) < 10) := by
  norm_num [periodicBoundaries, pbComp, boolVal]

/-- Claim C6, amended: `periodicBoundaries` acts componentwise; on a
periodic axis the output lies in [0, L) whenever the input coordinate
lies in [−L, 2·L) (the wrap corrects by at most one box length), the
output always differs from the input by an integer multiple of L, and a
non-periodic axis is left unchanged (in particular a negative
coordinate is left uncorrected). -/
theorem periodicWrap_amended :
    (∀ pos per box, periodicBoundaries pos per box =
        ⟨pbComp pos.x per.x box.x, pbComp pos.y per.y box.y⟩) ∧
    (∀ (c L : ℚ) (p : Bool),
      (p = true → 0 < L → -L ≤ c → c < 2 * L →
        0 ≤ pbComp c p L ∧ pbComp c p L < L) ∧
      (∃ k : ℤ, pbComp c p L = c + k * L) ∧
      (p = false → pbComp c p L = c)) := by
  refine ⟨fun pos per box => rfl, fun c L p => ⟨?_, ?_, ?_⟩⟩
  · intro hp h0 h1 h2
    subst hp
    unfold pbComp
    simp only [boolVal_true, one_mul]
    split_ifs with hA hB <;> constructor <;> linarith
  · cases p with
    | false =>
        refine ⟨0, ?_⟩
        unfold pbComp
        simp only [boolVal_false, zero_mul, add_zero, sub_zero]
        split_ifs <;> simp
    | true =>
        unfold pbComp
        simp only [boolVal_true, one_mul]
        split_ifs
        · exact ⟨1, by push_cast; ring⟩
        · exact ⟨-1, by push_cast; ring⟩
        · exact ⟨0, by push_cast; ring⟩
  · intro hp
    subst hp
    unfold pbComp
    simp only [boolVal_false, zero_mul, add_zero, sub_zero]
    split_ifs <;> rfl

/-- Witness for the amended claim C6 at the concrete input −3 in a
periodic box of length 10. -/
theorem periodicWrap_amended_w :
    0 ≤ pbComp (-3) true 10 ∧ pbComp (-3) true 10 < 10 :=
  (periodicWrap_amended.2 (-3) 10 true).1 rfl (by norm_num) (by norm_num)
    (by norm_num)

/-- Claim C7: for two coordinates in a box of positive length L, the
minimum-image correction follows the source's branch rule (add the
flag-scaled L below −0.5·L, subtract it at or above 0.5·L), is the
identity on a non-periodic axis, and on a periodic axis the corrected
separation has magnitude at most L/2 and is the shortest among the raw
separation d, d − L and d + L. -/
theorem minImage_component_shortest :
    ∀ (a b L : ℚ) (p : Bool), 0 < L → 0 ≤ a → a < L → 0 ≤ b → b < L →
      (minImageComp (a - b) p L =
        (if a - b < -(1/2 * L) then a - b + boolVal p * L
         else if a - b ≥ 1/2 * L then a - b - boolVal p * L
         else a - b)) ∧
      (p = false → minImageComp (a - b) false L = a - b) ∧
      (p = true →
        |minImageComp (a - b) true L| ≤ L / 2 ∧
        (minImageComp (a - b) true L = a - b ∨
         minImageComp (a - b) true L = a - b - L ∨
         minImageComp (a - b) true L = a - b + L) ∧
        |minImageComp (a - b) true L| ≤ |a - b| ∧
        |minImageComp (a - b) true L| ≤ |a - b - L| ∧
        |minImageComp (a - b) true L| ≤ |a - b + L|) := by
  intro a b L p hL ha0 ha1 hb0 hb1
  refine ⟨rfl, fun _ => ?_, fun _ => ?_⟩
  · unfold minImageComp
    simp only [boolVal_false, zero_mul, add_zero, sub_zero]
    split_ifs <;> rfl
  · have hd1 : -L < a - b := by linarith
    have hd2 : a - b < L := by linarith
    unfold minImageComp
    simp only [boolVal_true, one_mul]
    split_ifs with hA hB
    · have hv : 0 ≤ a - b + L := by linarith
      rw [abs_of_nonneg hv, abs_of_neg (show a - b < 0 by linarith),
        abs_of_neg (show a - b - L < 0 by linarith)]
      refine ⟨by linarith, Or.inr (Or.inr rfl), by linarith, by linarith,
        le_refl _⟩
    · have hv : a - b - L < 0 := by linarith
      rw [abs_of_neg hv, abs_of_nonneg (show 0 ≤ a - b by linarith),
        abs_of_nonneg (show 0 ≤ a - b + L by linarith)]
      refine ⟨by linarith, Or.inr (Or.inl rfl), by linarith, by linarith,
        by linarith⟩
    · have hm : |a - b| ≤ L / 2 := abs_le.mpr ⟨by linarith, by linarith⟩
      have hdl : |a - b - L| = L - (a - b) := by
        rw [abs_of_neg (show a - b - L < 0 by linarith)]; ring
      have hdr : |a - b + L| = a - b + L :=
        abs_of_nonneg (by linarith)
      refine ⟨hm, Or.inl rfl, le_refl _, ?_, ?_⟩
      · rw [hdl]; linarith [abs_le.mp hm]
      · rw [hdr]; linarith [abs_le.mp hm]

/-- Witness for claim C7 at the concrete pair a = 1, b = 9 in a
periodic box of length 10: the corrected separation is +2, magnitude 2
≤ 5, the shortest among −8, −18, +2. -/
theorem minImage_component_shortest_w :
    |minImageComp ((1 : ℚ) - 9) true 10| ≤ 10 / 2 ∧
    (minImageComp ((1 : ℚ) - 9) true 10 = 1 - 9 ∨
     minImageComp ((1 : ℚ) - 9) true 10 = 1 - 9 - 10 ∨
     minImageComp ((1 : ℚ) - 9) true 10 = 1 - 9 + 10) ∧
    |minImageComp ((1 : ℚ) - 9) true 10| ≤ |(1 : ℚ) - 9| ∧
    |minImageComp ((1 : ℚ) - 9) true 10| ≤ |(1 : ℚ) - 9 - 10| ∧
    |minImageComp ((1 : ℚ) - 9) true 10| ≤ |(1 : ℚ) - 9 + 10| :=
  (minImage_component_shortest 1 9 10 true (by norm_num) (by norm_num)
    (by norm_num) (by norm_num) (by norm_num)).2.2 rfl

/-- Claim C10, counterexample: for box length 10, the separations +5
(= +0.5·L) and −5 (= −0.5·L) are both corrected to −5 — the same value
and the same sign, not exact negations as the claim asserts. -/
theorem overlaps_symm_boundary_cex :
    minImageComp 5 true 10 = -5 ∧ minImageComp (-5) true 10 = -5 ∧
      ¬ minImageComp (-5) true 10 = -minImageComp 5 true 10 := by
  norm_num [minImageComp, boolVal]

/-- Claim C10, amended: `overlaps` is symmetric in its two position
arguments for nonnegative box lengths; at the branch boundary the
correction maps both +0.5·L and −0.5·L to −0.5·L (equal corrected
values, hence equal squared norms). -/
theorem overlaps_symmetric :
    (∀ p1 p2 per box c, 0 ≤ box.x → 0 ≤ box.y →
      overlaps p1 p2 per box c = overlaps p2 p1 per box c) ∧
    (∀ L : ℚ, 0 < L → minImageComp (1/2 * L) true L = -(1/2 * L) ∧
      minImageComp (-(1/2 * L)) true L = -(1/2 * L)) := by
  constructor
  · intro p1 p2 per box c hx hy
    simp only [overlaps, minimumImage]
    have ex : p2.x - p1.x = -(p1.x - p2.x) := by ring
    have ey : p2.y - p1.y = -(p1.y - p2.y) := by ring
    simp only [ex, ey, minImageComp_neg_sq _ _ _ hx,
      minImageComp_neg_sq _ _ _ hy]
  · intro L hL
    constructor
    · unfold minImageComp
      simp only [boolVal_true, one_mul]
      split_ifs with h1 h2
      · linarith
      · ring
      · exact absurd (le_refl (1/2 * L)) h2
    · unfold minImageComp
      simp only [boolVal_true, one_mul]
      split_ifs with h1 h2
      · linarith
      · linarith
      · rfl

/-- Witness for the amended claim C10: symmetry at the concrete
touching pair of the boundary scenario. -/
theorem overlaps_symmetric_w :
    overlaps ⟨1, 1⟩ ⟨1, 9⟩ ⟨true, true⟩ ⟨10, 10⟩ 4 =
      overlaps ⟨1, 9⟩ ⟨1, 1⟩ ⟨true, true⟩ ⟨10, 10⟩ 4 :=
  overlaps_symmetric.1 ⟨1, 1⟩ ⟨1, 9⟩ ⟨true, true⟩ ⟨10, 10⟩ 4 (by norm_num)
    (by norm_num)

lemma cfgBug_nParticles : cfgBug.nParticles = 2 := rfl

lemma cfgBug_nSweeps : cfgBug.nSweeps = 3 := rfl

lemma cfgBug_sampleInterval : cfgBug.sampleInterval = 1 := rfl

set_option maxHeartbeats 1000000 in
/-- Helper: packing generation of the concrete run places the two small
particles at (1, 1) and (2.2, 1) with faithful stored regions,
consuming exactly the four packing draws. -/
lemma gen_eval (rest : List ℚ) :
    generate cfgBug 4 (packDraws ++ rest) = some (stPack, rest) := by
  norm_num [generate, genLarge, genSmall, placeSmallLoop, placeLargeLoop,
    smallOverlapFlag, drawPos, intDraw, posD, cfgBug, packDraws, stPack,
    Config.nParticles, Config.radiusSmall, Config.radiusLarge,
    Tree.insert, Tree.update, Tree.getOverlaps, aabbIntersects,
    axOverlapPer, axOverlap, ofSphere, overlaps, minimumImage,
    minImageComp, boolVal]

set_option maxHeartbeats 1000000 in
/-- Helper: trial 1 moves particle 0 to (1.05, 1); accepted; the update
call passes the default region. -/
lemma trial1_eval :
    trialStep cfgBug stPack 0 (3/4) 2⁻¹ =
      ⟨st1, [(false, 0, dfltAabb)], true⟩ := by
  norm_num [trialStep, trialAfterSel, intDraw, posD, cfgBug, stPack, st1,
    dfltAabb, defaultPoint, Config.nParticles, Config.radiusSmall,
    Config.radiusLarge, Tree.update, Tree.getOverlaps, aabbIntersects,
    axOverlapPer, axOverlap, ofSphere, overlaps, minimumImage,
    minImageComp, periodicBoundaries, pbComp, boolVal]

set_option maxHeartbeats 1000000 in
/-- Helper: trial 2 moves particle 1 to (2.15, 1); accepted; both
stored regions are now the default region. -/
lemma trial2_eval :
    trialStep cfgBug st1 2⁻¹ 4⁻¹ 2⁻¹ =
      ⟨st2, [(false, 1, dfltAabb)], true⟩ := by
  norm_num [trialStep, trialAfterSel, intDraw, posD, cfgBug, st1, st2,
    dfltAabb, defaultPoint, Config.nParticles, Config.radiusSmall,
    Config.radiusLarge, Tree.update, Tree.getOverlaps, aabbIntersects,
    axOverlapPer, axOverlap, ofSphere, overlaps, minimumImage,
    minImageComp, periodicBoundaries, pbComp, boolVal]

set_option maxHeartbeats 1000000 in
/-- Helper: trial 3 moves particle 1 to (2.1, 1), accepted because both
stored regions are the default region, so the broad phase returns no
candidates at all. -/
lemma trial3_eval :
    trialStep cfgBug st2 2⁻¹ 4⁻¹ 2⁻¹ =
      ⟨st3, [(false, 1, dfltAabb)], true⟩ := by
  norm_num [trialStep, trialAfterSel, intDraw, posD, cfgBug, st2, st3,
    dfltAabb, defaultPoint, Config.nParticles, Config.radiusSmall,
    Config.radiusLarge, Tree.update, Tree.getOverlaps, aabbIntersects,
    axOverlapPer, axOverlap, ofSphere, overlaps, minimumImage,
    minImageComp, periodicBoundaries, pbComp, boolVal]

set_option maxHeartbeats 1000000 in
/-- Helper: trial 4 moves particle 1 to (2.05, 1); accepted. -/
lemma trial4_eval :
    trialStep cfgBug st3 2⁻¹ 4⁻¹ 2⁻¹ =
      ⟨st4, [(false, 1, dfltAabb)], true⟩ := by
  norm_num [trialStep, trialAfterSel, intDraw, posD, cfgBug, st3, st4,
    dfltAabb, defaultPoint, Config.nParticles, Config.radiusSmall,
    Config.radiusLarge, Tree.update, Tree.getOverlaps, aabbIntersects,
    axOverlapPer, axOverlap, ofSphere, overlaps, minimumImage,
    minImageComp, periodicBoundaries, pbComp, boolVal]

set_option maxHeartbeats 1000000 in
/-- Helper: trial 5 moves particle 1 to (2, 1), a true hard-core
overlap with particle 0 at (1.05, 1), accepted nevertheless because the
stale default regions hide particle 0 from the broad phase. -/
lemma trial5_eval :
    trialStep cfgBug st4 2⁻¹ 4⁻¹ 2⁻¹ =
      ⟨st5, [(false, 1, dfltAabb)], true⟩ := by
  norm_num [trialStep, trialAfterSel, intDraw, posD, cfgBug, st4, st5,
    dfltAabb, defaultPoint, Config.nParticles, Config.radiusSmall,
    Config.radiusLarge, Tree.update, Tree.getOverlaps, aabbIntersects,
    axOverlapPer, axOverlap, ofSphere, overlaps, minimumImage,
    minImageComp, periodicBoundaries, pbComp, boolVal]

set_option maxHeartbeats 1000000 in
/-- Helper: trial 6 proposes a zero displacement for particle 1 and is
accepted, leaving the overlapping state in place. -/
lemma trial6_eval :
    trialStep cfgBug st5 2⁻¹ 2⁻¹ 2⁻¹ =
      ⟨st5, [(false, 1, dfltAabb)], true⟩ := by
  norm_num [trialStep, trialAfterSel, intDraw, posD, cfgBug, st5,
    dfltAabb, defaultPoint, Config.nParticles, Config.radiusSmall,
    Config.radiusLarge, Tree.update, Tree.getOverlaps, aabbIntersects,
    axOverlapPer, axOverlap, ofSphere, overlaps, minimumImage,
    minImageComp, periodicBoundaries, pbComp, boolVal]

set_option maxHeartbeats 1000000 in
/-- Helper: the three sweeps of the concrete run, with the frames
recorded after sweeps 1, 2 and 3. -/
lemma mcRun_eval :
    mcRun cfgBug stPack trialDraws =
      ⟨st5, [], [frameOf st2, frameOf st4, frameOf st5], 3⟩ := by
  simp [mcRun, mcLoop, sweep, sweepAux, trialStepS, cfgBug_nParticles,
    cfgBug_nSweeps, cfgBug_sampleInterval, trialDraws, trial1_eval,
    trial2_eval, trial3_eval, trial4_eval, trial5_eval, trial6_eval]

set_option maxHeartbeats 1000000 in
/-- Claim C2: refuted on the code.  On the concrete run `cfgBug` with
draw stream `bugDraws`, every trial is accepted, yet the final state —
which is also the last sampled frame — has its two particles at
minimum-image distance 0.95, strictly below the sum of radii 1.  The
stale default regions installed by the accept path's `update` calls
hide the particles from the broad phase, so the hard-core invariant is
violated after an accepted move and at a sampled instant. -/
theorem invariant_violated_after_accepted_move :
    fullRun cfgBug 4 bugDraws =
      some ⟨st5, [], [frameOf st2, frameOf st4, frameOf st5], 3⟩ ∧
    minImageDistSq (posD st5.positionsSmall 0) (posD st5.positionsSmall 1)
        cfgBug.periodicity cfgBug.boxSize <
      (cfgBug.radiusSmall + cfgBug.radiusSmall) *
        (cfgBug.radiusSmall + cfgBug.radiusSmall) := by
  constructor
  · have h := gen_eval trialDraws
    simp [fullRun, bugDraws, h, mcRun_eval]
  · norm_num [minImageDistSq, minimumImage, minImageComp, boolVal, posD,
      st5, cfgBug, Config.radiusSmall]

set_option maxHeartbeats 1000000 in
/-- Claim C1: refuted on the code.  Every index `update` call issued by
a trial passes the constant region built from the two
default-constructed bound points — never a region computed from the
accepted position.  Concretely, trial 1 of the run commits position
(1.05, 1) but calls `update` with the default region, which differs
from the bounding region of the accepted position. -/
theorem update_region_never_from_position :
    (∀ cfg st u0 u1 u2,
      (trialStep cfg st u0 u1 u2).updateCalls = [] ∨
      ∃ sp id, (trialStep cfg st u0 u1 u2).updateCalls =
        [(sp, id, dfltAabb)]) ∧
    (trialStep cfgBug stPack 0 (3/4) 2⁻¹).accepted = true ∧
    (trialStep cfgBug stPack 0 (3/4) 2⁻¹).updateCalls =
      [(false, 0, dfltAabb)] ∧
    posD (trialStep cfgBug stPack 0 (3/4) 2⁻¹).state.positionsSmall 0 =
      ⟨21/20, 1⟩ ∧
    ofSphere ⟨21/20, 1⟩ cfgBug.radiusSmall ≠ dfltAabb := by
  refine ⟨?_, ?_, ?_, ?_, ?_⟩
  · intro cfg st u0 u1 u2
    unfold trialStep trialAfterSel
    dsimp only
    split_ifs <;> first | exact Or.inl rfl | exact Or.inr ⟨_, _, rfl⟩
  · rw [trial1_eval]
  · rw [trial1_eval]
  · rw [trial1_eval]
    norm_num [st1, posD]
  · norm_num [ofSphere, dfltAabb, defaultPoint, cfgBug,
      Config.radiusSmall, Aabb.mk.injEq, Vec2.mk.injEq]

/-- Claim C5: a rejected trial leaves the state unchanged and issues no
index update call. -/
theorem rejected_trial_unchanged :
    ∀ cfg st u0 u1 u2,
      (trialStep cfg st u0 u1 u2).accepted = false →
        (trialStep cfg st u0 u1 u2).state = st ∧
        (trialStep cfg st u0 u1 u2).updateCalls = [] := by
  intro cfg st u0 u1 u2 h
  unfold trialStep trialAfterSel at h ⊢
  dsimp only at h ⊢
  split_ifs at h ⊢ <;> simp_all

set_option maxHeartbeats 1000000 in
/-- Witness for claim C5: with two particles at distance 1.05 and
faithful stored regions, the trial moving particle 1 to distance 0.99
is rejected and leaves the state bit-identical with no update call. -/
theorem rejected_trial_unchanged_w :
    (trialStep cfgBug stRej (1/2) (1/5) (1/2)).accepted = false ∧
    ((trialStep cfgBug stRej (1/2) (1/5) (1/2)).state = stRej ∧
     (trialStep cfgBug stRej (1/2) (1/5) (1/2)).updateCalls = []) := by
  have h : (trialStep cfgBug stRej (1/2) (1/5) (1/2)).accepted = false := by
    norm_num [trialStep, trialAfterSel, intDraw, posD, cfgBug, stRej,
      Config.nParticles, Config.radiusSmall, Config.radiusLarge,
      Tree.update, Tree.getOverlaps, aabbIntersects, axOverlapPer,
      axOverlap, ofSphere, overlaps, minimumImage, minImageComp,
      periodicBoundaries, pbComp, boolVal, defaultPoint]
  exact ⟨h, rejected_trial_unchanged cfgBug stRej (1/2) (1/5) (1/2) h⟩

/-- Claim C4: the whole run is a deterministic function of the draw
stream (equal streams give equal runs, hence equal trajectory output),
and each trial consumes exactly three draws from the front of the
stream in the fixed order particle-selection draw first, then the two
per-axis displacement draws. -/
theorem seeded_run_deterministic :
    (∀ cfg fuel s t, s = t → fullRun cfg fuel s = fullRun cfg fuel t) ∧
    (∀ cfg st u0 u1 u2 rest,
      trialStepS cfg st (u0 :: u1 :: u2 :: rest) =
        (trialStep cfg st u0 u1 u2, rest)) ∧
    (∀ cfg st u0 u1 u2,
      trialStep cfg st u0 u1 u2 =
        trialAfterSel cfg st (intDraw u0 0 (cfg.nParticles - 1)) u1 u2) :=
  ⟨fun cfg fuel s t h => by rw [h], fun cfg st u0 u1 u2 rest => rfl,
    fun cfg st u0 u1 u2 => rfl⟩

/-- Witness for claim C4: the concrete run applied to two equal copies
of its seed-determined draw stream. -/
theorem seeded_run_deterministic_w :
    fullRun cfgBug 4 bugDraws = fullRun cfgBug 4 bugDraws :=
  seeded_run_deterministic.1 cfgBug 4 bugDraws bugDraws rfl

/-- Claim C8: packing places all large particles before any small one;
a small candidate's overlap flag is the large-species test with cutoff
(radiusSmall + radiusLarge)² or-ed, only for particles after the first,
with the own-species test with cutoff (2·radiusSmall)²; the placement
loop redraws the candidate from the next two stream draws on any true
overlap; for the first small particle the own-species test is
skipped. -/
theorem packing_structure :
    (∀ cfg fuel s, generate cfg fuel s =
      match genLarge cfg fuel cfg.nLarge 0 ⟨[]⟩ [] s with
      | none => none
      | some (tL, pL, s1) =>
          match genSmall cfg fuel tL pL cfg.nSmall 0 ⟨[]⟩ [] s1 with
          | none => none
          | some (tS, pS, s2) => some (⟨pS, pL, tS, tL⟩, s2)) ∧
    (∀ cfg tS tL pS pL i pos,
      smallOverlapFlag cfg tS tL pS pL i pos =
        (((tL.getOverlaps cfg.periodicity cfg.boxSize
              (ofSphere pos cfg.radiusSmall)).any (fun j =>
            overlaps pos (posD pL j) cfg.periodicity cfg.boxSize
              ((cfg.radiusSmall + cfg.radiusLarge) *
                (cfg.radiusSmall + cfg.radiusLarge)))) ||
          (decide (0 < i) &&
            ((tS.getOverlaps cfg.periodicity cfg.boxSize
                (ofSphere pos cfg.radiusSmall)).any (fun j =>
              overlaps pos (posD pS j) cfg.periodicity cfg.boxSize
                ((2 * cfg.radiusSmall) * (2 * cfg.radiusSmall))))))) ∧
    (∀ cfg tS tL pS pL i fuel s,
      placeSmallLoop cfg tS tL pS pL i (fuel + 1) s =
        (if smallOverlapFlag cfg tS tL pS pL i (drawPos cfg s) then
          placeSmallLoop cfg tS tL pS pL i fuel s.tail.tail
        else some (drawPos cfg s, s.tail.tail))) ∧
    (∀ cfg tS tL pS pL pos,
      smallOverlapFlag cfg tS tL pS pL 0 pos =
        ((tL.getOverlaps cfg.periodicity cfg.boxSize
            (ofSphere pos cfg.radiusSmall)).any (fun j =>
          overlaps pos (posD pL j) cfg.periodicity cfg.boxSize
            ((cfg.radiusSmall + cfg.radiusLarge) *
              (cfg.radiusSmall + cfg.radiusLarge))))) := by
  refine ⟨fun cfg fuel s => rfl, ?_, fun cfg tS tL pS pL i fuel s => rfl, ?_⟩
  · intro cfg tS tL pS pL i pos
    unfold smallOverlapFlag
    dsimp only
    split_ifs with h1 h2 <;> simp_all
  · intro cfg tS tL pS pL pos
    unfold smallOverlapFlag
    dsimp only
    split_ifs with h1 h2 <;> simp_all

lemma sweepsIter_succ (cfg : Config) (j : ℕ) (p : SimState × List ℚ) :
    sweepsIter cfg (j + 1) p = sweepsIter cfg j (sweep cfg p.1 p.2) := rfl

lemma mcLoop_succ_pos (cfg : Config) (n : ℕ) (st : SimState) (s : List ℚ)
    (flag cnt : ℕ) (h : flag + 1 = cfg.sampleInterval) :
    mcLoop cfg (n + 1) st s flag cnt =
      ⟨(mcLoop cfg n (sweep cfg st s).1 (sweep cfg st s).2 0
          (cnt + 1)).state,
       (mcLoop cfg n (sweep cfg st s).1 (sweep cfg st s).2 0
          (cnt + 1)).stream,
       frameOf (sweep cfg st s).1 ::
         (mcLoop cfg n (sweep cfg st s).1 (sweep cfg st s).2 0
            (cnt + 1)).frames,
       (mcLoop cfg n (sweep cfg st s).1 (sweep cfg st s).2 0
          (cnt + 1)).nSampled⟩ := by
  simp only [mcLoop]
  rw [if_pos h]

lemma mcLoop_succ_neg (cfg : Config) (n : ℕ) (st : SimState) (s : List ℚ)
    (flag cnt : ℕ) (h : ¬ flag + 1 = cfg.sampleInterval) :
    mcLoop cfg (n + 1) st s flag cnt =
      mcLoop cfg n (sweep cfg st s).1 (sweep cfg st s).2 (flag + 1) cnt := by
  simp only [mcLoop]
  rw [if_neg h]

/-- Helper: closed form of the sweep loop.  Starting with sample flag
`flag < sampleInterval` and counter `cnt`, running `n` sweeps records
exactly `(n + flag) / sampleInterval` frames, the k-th being the full
configuration right after the `(k+1)·sampleInterval − flag`-th sweep,
and increments the sample counter once per recorded frame. -/
lemma mcLoop_characterization (cfg : Config) :
    ∀ (n : ℕ) (st : SimState) (s : List ℚ) (flag cnt : ℕ),
      flag < cfg.sampleInterval →
      (mcLoop cfg n st s flag cnt).frames =
        (List.range ((n + flag) / cfg.sampleInterval)).map
          (fun k => frameOf (sweepsIter cfg
            ((cfg.sampleInterval - flag) + k * cfg.sampleInterval)
            (st, s)).1) ∧
      (mcLoop cfg n st s flag cnt).nSampled =
        cnt + (n + flag) / cfg.sampleInterval := by
  intro n
  induction n with
  | zero =>
      intro st s flag cnt hf
      constructor <;> simp [mcLoop, Nat.div_eq_of_lt hf]
  | succ n ih =>
      intro st s flag cnt hf
      have hm0 : 0 < cfg.sampleInterval :=
        Nat.lt_of_le_of_lt (Nat.zero_le flag) hf
      by_cases h : flag + 1 = cfg.sampleInterval
      · have hstep : ∀ k : ℕ,
            frameOf (sweepsIter cfg ((cfg.sampleInterval - flag) +
              (k + 1) * cfg.sampleInterval) (st, s)).1 =
            frameOf (sweepsIter cfg
              (cfg.sampleInterval + k * cfg.sampleInterval)
              (sweep cfg st s)).1 := by
          intro k
          have e1 : (cfg.sampleInterval - flag) +
              (k + 1) * cfg.sampleInterval =
              (cfg.sampleInterval + k * cfg.sampleInterval) + 1 := by
            rw [add_one_mul]
            generalize k * cfg.sampleInterval = K
            omega
          rw [e1, sweepsIter_succ]
        have e2 : (n + 1 + flag) / cfg.sampleInterval =
            n / cfg.sampleInterval + 1 := by
          have e : n + 1 + flag = n + cfg.sampleInterval := by omega
          rw [e, Nat.add_div_right _ hm0]
        obtain ⟨ihf, ihn⟩ :=
          ih (sweep cfg st s).1 (sweep cfg st s).2 0 (cnt + 1) hm0
        rw [mcLoop_succ_pos cfg n st s flag cnt h]
        constructor
        · show frameOf (sweep cfg st s).1 :: _ = _
          rw [ihf, e2, List.range_succ_eq_map, List.map_cons, List.map_map]
          congr 1
          · rw [show cfg.sampleInterval - flag + 0 * cfg.sampleInterval = 1
              by omega]
            rfl
          · simp only [Nat.add_zero, Nat.sub_zero, Prod.mk.eta]
            refine List.map_congr_left ?_
            intro k hk
            simp only [Function.comp_apply]
            exact (hstep k).symm
        · show (mcLoop cfg n (sweep cfg st s).1 (sweep cfg st s).2 0
              (cnt + 1)).nSampled = cnt + (n + 1 + flag) / cfg.sampleInterval
          rw [ihn, e2]
          simp only [Nat.add_zero]
          omega
      · have hf1 : flag + 1 < cfg.sampleInterval :=
          lt_of_le_of_ne (Nat.succ_le_of_lt hf) h
        obtain ⟨ihf, ihn⟩ :=
          ih (sweep cfg st s).1 (sweep cfg st s).2 (flag + 1) cnt hf1
        rw [mcLoop_succ_neg cfg n st s flag cnt h]
        have e3 : n + (flag + 1) = n + 1 + flag := by omega
        constructor
        · rw [ihf, e3]
          have e4 : ∀ k : ℕ,
              frameOf (sweepsIter cfg
                ((cfg.sampleInterval - (flag + 1)) +
                  k * cfg.sampleInterval) (sweep cfg st s)).1 =
              frameOf (sweepsIter cfg
                ((cfg.sampleInterval - flag) + k * cfg.sampleInterval)
                (st, s)).1 := by
            intro k
            have e5 : (cfg.sampleInterval - flag) + k * cfg.sampleInterval =
                ((cfg.sampleInterval - (flag + 1)) +
                  k * cfg.sampleInterval) + 1 := by
              generalize k * cfg.sampleInterval = K
              omega
            rw [e5, sweepsIter_succ]
          exact List.map_congr_left (fun k _ => e4 k)
        · rw [ihn, e3]

/-- Claim C9: the sampler records one frame after every
`sampleInterval` completed sweeps — the k-th frame is the full
configuration (both species' position sequences) strictly after all
trials of sweep `(k+1)·sampleInterval` have resolved, a sweep being
`nSmall + nLarge` consecutive trials — the sample counter equals the
number of recorded frames, and the number of frames after `nSweeps`
sweeps is `nSweeps / sampleInterval`. -/
theorem sampler_cadence :
    ∀ cfg st s, 0 < cfg.sampleInterval →
      (mcRun cfg st s).frames =
        (List.range (cfg.nSweeps / cfg.sampleInterval)).map
          (fun k => frameOf (sweepsIter cfg
            (cfg.sampleInterval + k * cfg.sampleInterval) (st, s)).1) ∧
      (mcRun cfg st s).nSampled = cfg.nSweeps / cfg.sampleInterval ∧
      (mcRun cfg st s).frames.length =
        cfg.nSweeps / cfg.sampleInterval ∧
      sweep cfg st s = sweepAux cfg (cfg.nSmall + cfg.nLarge) st s := by
  intro cfg st s hm
  obtain ⟨hf, hn⟩ := mcLoop_characterization cfg cfg.nSweeps st s 0 0 hm
  have hf2 : (mcRun cfg st s).frames =
      (List.range (cfg.nSweeps / cfg.sampleInterval)).map
        (fun k => frameOf (sweepsIter cfg
          (cfg.sampleInterval + k * cfg.sampleInterval) (st, s)).1) := by
    simpa [mcRun] using hf
  refine ⟨hf2, by simpa [mcRun] using hn, ?_, rfl⟩
  rw [hf2]
  simp

/-- Witness for claim C9: at nSweeps = 1000 and sampleInterval = 100
exactly 10 frames are recorded. -/
theorem sampler_cadence_w :
    0 < cfg1000.sampleInterval ∧
      (mcRun cfg1000 stPack trialDraws).frames.length = 10 := by
  have h :=
    (sampler_cadence cfg1000 stPack trialDraws (by norm_num [cfg1000])).2.2.1
  exact ⟨by norm_num [cfg1000], by simpa [cfg1000] using h⟩

end HardDisc
